import Mathlib

/-!
Shallow embedding of `ChanStockBot/stock_fetcher.py`: the Volatility Estimator
(`get_volatility`), the Stock Filter (`filter_cheap_stocks`) and the Batch
Scanner (`get_cheap_stocks`), with the network boundary (yfinance `info`
lookups and price-history fetches) modelled as explicit oracle functions.
Quote fields and prices are modelled as rationals (`mkRat a b` denotes the
decimal constants of the source, e.g. `mkRat 1 20 = 0.05`); the volatility
computation, which needs a square root, is modelled over the reals.
-/

/-! ## Volatility Estimator (`get_volatility`) -/

/-- One-period simple percentage changes between consecutive closes:
`hist['Close'].pct_change().dropna()`. -/
noncomputable def pct_changes (closes : List ℝ) : List ℝ :=
  (closes.zip closes.tail).map (fun p => (p.2 - p.1) / p.1)

/-- Sample variance with the (n-1) denominator, as computed by pandas
`Series.std()` squared (default `ddof=1`). -/
noncomputable def sampleVar (xs : List ℝ) : ℝ :=
  ((xs.map (fun x => (x - xs.sum / xs.length) ^ 2)).sum) / (xs.length - 1)

/-- Sample standard deviation, pandas `Series.std()` (default `ddof=1`). -/
noncomputable def sampleStd (xs : List ℝ) : ℝ :=
  Real.sqrt (sampleVar xs)

/-- Python `round(x, 1)`: rounding to one decimal place. -/
noncomputable def round1 (x : ℝ) : ℝ :=
  (round (10 * x) : ℤ) / 10

/-- `get_volatility`, on the success path of the history fetch: with at least
5 observations, annualize the sample standard deviation of the daily returns
by `sqrt(252)` (`daily_returns.std() * (252 ** 0.5) * 100`), rounded to one
decimal; with fewer than 5 observations the loop breaks and 0.0 is returned. -/
noncomputable def get_volatility (closes : List ℝ) : ℝ :=
  if 5 ≤ closes.length then
    round1 (sampleStd (pct_changes closes) * Real.sqrt 252 * 100)
  else 0

/-! ## Data model: quote snapshots and candidates -/

/-- The fields of `yf.Ticker(sym).info` read by the filter. Every field is
optional: the upstream provider may omit any of them (`info.get(key, default)`
in the source). -/
structure Quote where
  currentPrice : Option ℚ
  trailingPE : Option ℚ
  debtToEquity : Option ℚ
  returnOnEquity : Option ℚ
  currentRatio : Option ℚ
  marketCap : Option ℚ
  shortName : Option String
  averageVolume : Option ℚ

/-- The candidate record built by `filter_cheap_stocks` (and, for the
fallback, by `get_cheap_stocks`). `liquidity` is optional because the
hardcoded fallback dict carries no `'liquidity'` key. -/
structure Candidate where
  symbol : String
  name : String
  price : ℚ
  pe : ℚ
  mcap : String
  volatility : ℝ
  liquidity : Option ℚ

/-! ## Market-cap display formatting -/

/-- Round a rational to the nearest integer, ties to even: the tie-breaking
used by Python float formatting (`:.1f`). -/
def roundHalfEven (q : ℚ) : ℤ :=
  if q - ⌊q⌋ < mkRat 1 2 then ⌊q⌋
  else if mkRat 1 2 < q - ⌊q⌋ then ⌊q⌋ + 1
  else if 2 ∣ ⌊q⌋ then ⌊q⌋ else ⌊q⌋ + 1

/-- Python `f"{x:.1f}"`: fixed-point rendering with exactly one digit after
the decimal point. -/
def fixed1 (x : ℚ) : String :=
  let n : ℤ := roundHalfEven (10 * x)
  (if n < 0 then "-" else "") ++ toString (n.natAbs / 10) ++ "." ++ toString (n.natAbs % 10)

/-- The mcap display string of an admitted candidate:
`f"₹{info.get('marketCap', 0)/100:.1f}Cr"`. -/
def formatMcap (m : ℚ) : String :=
  "₹" ++ fixed1 (m / 100) ++ "Cr"

/-- Modelled from the spec's words (for comparison with `formatMcap` only):
the same display transform but with a two-decimal rendering, as section 4.2's
"fixed divisor of 100 with two-decimal precision and a currency-unit suffix"
describes. -/
def fixed2 (x : ℚ) : String :=
  let n : ℤ := roundHalfEven (100 * x)
  (if n < 0 then "-" else "") ++ toString (n.natAbs / 100) ++ "." ++
    toString (n.natAbs % 100 / 10) ++ toString (n.natAbs % 10)

/-- Modelled from the spec's words (for comparison with `formatMcap` only):
market-cap display with two-decimal precision. -/
def formatMcapSpecTwoDec (m : ℚ) : String :=
  "₹" ++ fixed2 (m / 100) ++ "Cr"

/-! ## Symbol spelling variants -/

/-- Replace every non-overlapping occurrence of `pat` (scanning left to
right) in the char list, Python `str.replace` semantics for a non-empty
pattern. The `Nat` fuel argument is initialized to the list length by
`replaceAll`; each step consumes one fuel and at least one char, so the fuel
never runs out. Structural recursion on the fuel keeps the definition
kernel-reducible. -/
def replaceAllFuel (pat repl : List Char) : Nat → List Char → List Char
  | 0, l => l
  | _ + 1, [] => []
  | fuel + 1, c :: rest =>
    if pat ≠ [] ∧ pat.isPrefixOf (c :: rest) then
      repl ++ replaceAllFuel pat repl fuel ((c :: rest).drop pat.length)
    else
      c :: replaceAllFuel pat repl fuel rest

/-- Python `s.replace(pat, repl)` for a non-empty pattern. -/
def strReplace (s pat repl : String) : String :=
  String.mk (replaceAllFuel pat.data repl.data s.data.length s.data)

/-- Python `s.lower()` (ASCII case mapping suffices for ticker symbols). -/
def strLower (s : String) : String :=
  String.mk (s.data.map Char.toLower)

/-- The four spelling variants tried in order by `filter_cheap_stocks`:
the symbol as given, `.NS` stripped, `.NS` replaced by `.BO`, lowercased. -/
def symbol_variants (symbol : String) : List String :=
  [symbol, strReplace symbol ".NS" "", strReplace symbol ".NS" ".BO", strLower symbol]

/-! ## Stock Filter (`filter_cheap_stocks`) -/

/-- The five boolean fundamental checks of `filter_cheap_stocks`, in source
order, with the source's defaults for missing fields:
trailing P/E < 45 (missing → `float('inf')`, fails);
debt-to-equity < 2.0 (missing → 2, fails on the boundary);
return on equity > 0.05 (missing → 0, fails; `mkRat 1 20 = 0.05`);
current ratio > 0.6 (missing → 0.8, passes; `mkRat 3 5 = 0.6`,
`mkRat 4 5 = 0.8`); market cap > 300 (missing → 0, fails). -/
def filters (info : Quote) : List Bool :=
  [ (match info.trailingPE with
     | some x => decide (x < 45)
     | none => false),
    decide (info.debtToEquity.getD 2 < 2),
    decide (info.returnOnEquity.getD 0 > mkRat 1 20),
    decide (info.currentRatio.getD (mkRat 4 5) > mkRat 3 5),
    decide (info.marketCap.getD 0 > 300) ]

/-- The body of the variant loop of `filter_cheap_stocks` for one spelling
variant `sym` of the original `symbol`: a failing lookup, a missing
`currentPrice` or `trailingPE`, a price outside the open interval (10, 100),
or fewer than 2 passing checks all fall through to the next variant (`none`);
otherwise the candidate record is built, with the volatility obtained by a
second (history) lookup for the same variant. -/
noncomputable def evalVariant (symbol sym : String) (quotes : String → Option Quote)
    (hist : String → List ℝ) : Option Candidate :=
  match quotes sym with
  | none => none
  | some info =>
    match info.currentPrice, info.trailingPE with
    | some price, some pe =>
      if 10 < price ∧ price < 100 then
        if 2 ≤ (filters info).count true then
          some { symbol := symbol
                 name := info.shortName.getD symbol
                 price := price
                 pe := pe
                 mcap := formatMcap (info.marketCap.getD 0)
                 volatility := get_volatility (hist sym)
                 liquidity := some (info.averageVolume.getD 0) }
        else none
      else none
    | _, _ => none

/-- The variant loop of `filter_cheap_stocks`: try each spelling variant in
order, returning the first candidate produced. -/
noncomputable def tryVariants (symbol : String) (quotes : String → Option Quote)
    (hist : String → List ℝ) : List String → Option Candidate
  | [] => none
  | v :: rest =>
    match evalVariant symbol v quotes hist with
    | some c => some c
    | none => tryVariants symbol quotes hist rest

/-- `filter_cheap_stocks(symbol)`: evaluate the four spelling variants in
order; `none` models Python's `return None`. -/
noncomputable def filter_cheap_stocks (symbol : String) (quotes : String → Option Quote)
    (hist : String → List ℝ) : Option Candidate :=
  tryVariants symbol quotes hist (symbol_variants symbol)

/-! ## Batch Scanner (`get_cheap_stocks`) -/

/-- The hardcoded fallback candidate returned when the symbol source yields
nothing (`mkRat 191 2 = 95.50`, `mkRat 123 10 = 12.3`; the dict carries no
`'liquidity'` key). -/
noncomputable def fallbackCandidate : Candidate :=
  { symbol := "FALLBACK.NS"
    name := "Example Stock"
    price := mkRat 191 2
    pe := mkRat 123 10
    volatility := 25.5
    mcap := "₹1,000Cr"
    liquidity := none }

/-- Partition the symbol list into consecutive batches of 50
(`symbols[i:i + batch_size]` for `i = 0, 50, 100, ...`). The `Nat` fuel is
initialized to the list length; each step consumes one fuel and at least one
symbol, so the fuel never runs out. -/
def toBatchesFuel : Nat → List String → List (List String)
  | 0, _ => []
  | fuel + 1, l =>
    if l.isEmpty then [] else l.take 50 :: toBatchesFuel fuel (l.drop 50)

/-- The batches of 50 processed by `get_cheap_stocks`. -/
def toBatches (l : List String) : List (List String) :=
  toBatchesFuel l.length l

/-- The batch loop of `get_cheap_stocks`: per batch, collect the non-`None`
filter results in input order (`executor.map` preserves order;
`filter(None, ...)`), extend the accumulator, and stop issuing batches once
`limit * 3` results have accumulated. -/
noncomputable def scanBatches (quotes : String → Option Quote) (hist : String → List ℝ)
    (limit : ℕ) : List (List String) → List Candidate → List Candidate
  | [], acc => acc
  | b :: bs, acc =>
    let acc2 := acc ++ b.filterMap (fun s => filter_cheap_stocks s quotes hist)
    if limit * 3 ≤ acc2.length then acc2 else scanBatches quotes hist limit bs acc2

/-- The sort comparator of `get_cheap_stocks`: ascending on the key tuple
`(float(x['pe']), -x['price'])`, i.e. P/E ascending with ties broken by price
descending. (Admitted candidates always carry a numeric `pe` and `price`, so
the dict-lookup defaults of the key function never fire.) -/
def candLE (a b : Candidate) : Bool :=
  decide (a.pe < b.pe) || (decide (a.pe = b.pe) && decide (b.price ≤ a.price))

/-- The ordering guaranteed between adjacent result entries: strictly smaller
P/E, or equal P/E and no smaller price. -/
def rankedBefore (a b : Candidate) : Prop :=
  a.pe < b.pe ∨ (a.pe = b.pe ∧ b.price ≤ a.price)

/-- `get_cheap_stocks(limit)` over a given symbol universe: empty universe →
the single fallback candidate; otherwise run the batch loop, and if any
results were collected, sort them by the comparator and truncate to `limit`
(`results[:limit]`); with no results return the empty list. -/
noncomputable def get_cheap_stocks (symbols : List String) (quotes : String → Option Quote)
    (hist : String → List ℝ) (limit : ℕ) : List Candidate :=
  if symbols.isEmpty then [fallbackCandidate]
  else
    let results := scanBatches quotes hist limit (toBatches symbols) []
    if results.isEmpty then []
    else (results.mergeSort candLE).take limit

/-! ## Concrete inputs used by witnesses and counterexamples -/

/-- A quote passing the price gate and all five fundamental checks. -/
def witInfo : Quote :=
  { currentPrice := some 50
    trailingPE := some 10
    debtToEquity := some 1
    returnOnEquity := some 1
    currentRatio := some 2
    marketCap := some 1000
    shortName := some "Wit Corp"
    averageVolume := some 5000 }

/-- A quote lookup oracle resolving only the symbol `"WIT"`. -/
def witQuotes (s : String) : Option Quote :=
  if s = "WIT" then some witInfo else none

/-- A history oracle returning no data (volatility 0.0 path). -/
def histEmpty (_ : String) : List ℝ := []

/-- The candidate `filter_cheap_stocks` builds from `witInfo`. -/
noncomputable def witCand : Candidate :=
  { symbol := "WIT"
    name := "Wit Corp"
    price := 50
    pe := 10
    mcap := formatMcap 1000
    volatility := get_volatility []
    liquidity := some 5000 }

/-- A quote whose lookup succeeds with both essential fields present but
whose price (150) fails the price gate. -/
def cexInfoHigh : Quote :=
  { currentPrice := some 150
    trailingPE := some 10
    debtToEquity := some 1
    returnOnEquity := some 1
    currentRatio := some 2
    marketCap := some 1000
    shortName := some "HighPrice Corp"
    averageVolume := some 5000 }

/-- A quote that is admitted (price 50, all checks pass). -/
def cexInfoGood : Quote :=
  { currentPrice := some 50
    trailingPE := some 10
    debtToEquity := some 1
    returnOnEquity := some 1
    currentRatio := some 2
    marketCap := some 1000
    shortName := some "Good Corp"
    averageVolume := some 5000 }

/-- A lookup oracle under which the symbol `"CEX.NS"` resolves to a
gate-failing quote, while its suffix-stripped variant `"CEX"` resolves to an
admitted one. -/
def cexQuotes (s : String) : Option Quote :=
  if s = "CEX.NS" then some cexInfoHigh
  else if s = "CEX" then some cexInfoGood
  else none

/-- The candidate the filter builds for input `"CEX.NS"` under `cexQuotes`:
the symbol field keeps the original spelling, the data comes from the
`"CEX"` variant. -/
noncomputable def cexCand : Candidate :=
  { symbol := "CEX.NS"
    name := "Good Corp"
    price := 50
    pe := 10
    mcap := formatMcap 1000
    volatility := get_volatility []
    liquidity := some 5000 }


/-! ## Helper lemmas -/

theorem round1_nonneg {x : ℝ} (hx : 0 ≤ x) : 0 ≤ round1 x := by
  unfold round1
  apply div_nonneg _ (by norm_num)
  have h : (0 : ℤ) ≤ round (10 * x) := by
    rw [round_eq]
    apply Int.le_floor.mpr
    push_cast
    linarith
  exact_mod_cast h

theorem sampleStd_nonneg (xs : List ℝ) : 0 ≤ sampleStd xs :=
  Real.sqrt_nonneg _

theorem roundHalfEven_intCast (z : ℤ) : roundHalfEven (z : ℚ) = z := by
  unfold roundHalfEven
  rw [Int.floor_intCast, sub_self, if_pos (by decide)]

theorem fixed1_intCast (z : ℤ) :
    fixed1 (z : ℚ) = (if 10 * z < 0 then "-" else "") ++
      toString ((10 * z).natAbs / 10) ++ "." ++ toString ((10 * z).natAbs % 10) := by
  unfold fixed1
  have h : (10 : ℚ) * (z : ℚ) = ((10 * z : ℤ) : ℚ) := by push_cast; ring
  rw [h, roundHalfEven_intCast]

theorem fixed2_intCast (z : ℤ) :
    fixed2 (z : ℚ) = (if 100 * z < 0 then "-" else "") ++
      toString ((100 * z).natAbs / 100) ++ "." ++
      toString ((100 * z).natAbs % 100 / 10) ++ toString ((100 * z).natAbs % 10) := by
  unfold fixed2
  have h : (100 : ℚ) * (z : ℚ) = ((100 * z : ℤ) : ℚ) := by push_cast; ring
  rw [h, roundHalfEven_intCast]

/-! ## Claims about the Volatility Estimator -/

/-- C2: for every price series with at least 5 observations, the volatility
estimator's output equals `round(stdev(pct_changes) * sqrt(252) * 100, 1)`
and is nonnegative. -/
theorem C2_volatility_formula (closes : List ℝ) (h : 5 ≤ closes.length) :
    get_volatility closes
        = round1 (sampleStd (pct_changes closes) * Real.sqrt 252 * 100) ∧
      0 ≤ get_volatility closes := by
  have he : get_volatility closes
      = round1 (sampleStd (pct_changes closes) * Real.sqrt 252 * 100) := by
    unfold get_volatility
    rw [if_pos h]
  refine ⟨he, ?_⟩
  rw [he]
  exact round1_nonneg
    (mul_nonneg (mul_nonneg (sampleStd_nonneg _) (Real.sqrt_nonneg _)) (by norm_num))

/-- Witness for C2 at the concrete 5-point series of constant closes. -/
theorem C2_witness :
    5 ≤ ([1, 1, 1, 1, 1] : List ℝ).length ∧
    (get_volatility [1, 1, 1, 1, 1]
        = round1 (sampleStd (pct_changes [1, 1, 1, 1, 1]) * Real.sqrt 252 * 100) ∧
      0 ≤ get_volatility [1, 1, 1, 1, 1]) :=
  ⟨by decide, C2_volatility_formula [1, 1, 1, 1, 1] (by decide)⟩

/-- C6: with fewer than 5 observations the volatility estimator returns
exactly 0.0. -/
theorem C6_short_series (closes : List ℝ) (h : closes.length < 5) :
    get_volatility closes = 0 := by
  unfold get_volatility
  rw [if_neg (by omega)]

/-- Witness for C6 at the empty series. -/
theorem C6_witness : ([] : List ℝ).length < 5 ∧ get_volatility [] = 0 :=
  ⟨by decide, C6_short_series [] (by decide)⟩

/-! ## Claims about the Batch Scanner -/

/-- C7: with an empty symbol universe the scanner returns exactly the single
hardcoded fallback candidate, not an empty list. -/
theorem C7_empty_fallback (quotes : String → Option Quote) (hist : String → List ℝ)
    (limit : ℕ) : get_cheap_stocks [] quotes hist limit = [fallbackCandidate] := rfl

/-- C9 (amended): for a non-empty symbol universe the scanner returns at most
`limit` candidates. (With an empty universe the fallback path returns exactly
one candidate regardless of `limit`, which exceeds a requested limit of 0.) -/
theorem C9_limit (symbols : List String) (quotes : String → Option Quote)
    (hist : String → List ℝ) (limit : ℕ) (h : symbols ≠ []) :
    (get_cheap_stocks symbols quotes hist limit).length ≤ limit := by
  obtain ⟨a, as, rfl⟩ : ∃ a as, symbols = a :: as := by
    cases symbols with
    | nil => exact absurd rfl h
    | cons a as => exact ⟨a, as, rfl⟩
  unfold get_cheap_stocks
  simp only [List.isEmpty_cons, Bool.false_eq_true, if_false]
  split
  · simp
  · exact le_trans (List.length_take_le _ _) le_rfl

/-- Witness for C9 at a one-symbol universe and limit 10. -/
theorem C9_witness :
    (["WIT"] : List String) ≠ [] ∧
      (get_cheap_stocks ["WIT"] witQuotes histEmpty 10).length ≤ 10 :=
  ⟨by decide, C9_limit ["WIT"] witQuotes histEmpty 10 (by decide)⟩

/-- C9 counterexample: with an empty symbol universe and a requested limit of
0 the scanner returns the 1-element fallback list, which has more than
`limit` entries. -/
theorem C9_cex : ¬ (get_cheap_stocks [] witQuotes histEmpty 0).length ≤ 0 := by
  decide

theorem candLE_iff (a b : Candidate) : candLE a b = true ↔ rankedBefore a b := by
  simp [candLE, rankedBefore, Bool.or_eq_true, Bool.and_eq_true, decide_eq_true_eq]

theorem candLE_trans (a b c : Candidate) :
    candLE a b → candLE b c → candLE a c := by
  intro hab hbc
  rw [candLE_iff] at hab hbc ⊢
  rcases hab with h | ⟨he, hp⟩ <;> rcases hbc with h2 | ⟨he2, hp2⟩
  · exact Or.inl (lt_trans h h2)
  · exact Or.inl (lt_of_lt_of_le h (le_of_eq he2))
  · exact Or.inl (lt_of_le_of_lt (le_of_eq he) h2)
  · exact Or.inr ⟨he.trans he2, le_trans hp2 hp⟩

theorem candLE_total (a b : Candidate) : candLE a b || candLE b a := by
  rw [Bool.or_eq_true, candLE_iff, candLE_iff]
  rcases lt_trichotomy a.pe b.pe with h | h | h
  · exact Or.inl (Or.inl h)
  · rcases le_total b.price a.price with hp | hp
    · exact Or.inl (Or.inr ⟨h, hp⟩)
    · exact Or.inr (Or.inr ⟨h.symm, hp⟩)
  · exact Or.inr (Or.inl h)

/-- C3: for a non-empty symbol universe, every adjacent pair (a, b) of the
scanner's result satisfies a.pe < b.pe, or a.pe = b.pe and a.price ≥ b.price.
(Admitted candidates always carry a numeric P/E, so the key function's
missing-P/E default `float('inf')` never fires.) -/
theorem C3_sorted (symbols : List String) (quotes : String → Option Quote)
    (hist : String → List ℝ) (limit : ℕ) (h : symbols ≠ []) :
    List.Pairwise rankedBefore (get_cheap_stocks symbols quotes hist limit) := by
  obtain ⟨a, as, rfl⟩ : ∃ a as, symbols = a :: as := by
    cases symbols with
    | nil => exact absurd rfl h
    | cons a as => exact ⟨a, as, rfl⟩
  unfold get_cheap_stocks
  simp only [List.isEmpty_cons, Bool.false_eq_true, if_false]
  split
  · exact List.Pairwise.nil
  · refine List.Pairwise.sublist (List.take_sublist _ _) ?_
    exact (List.sorted_mergeSort candLE_trans candLE_total _).imp
      (fun hle => (candLE_iff _ _).mp hle)

/-- Witness for C3 at a one-symbol universe that admits one candidate. -/
theorem C3_witness :
    (["WIT"] : List String) ≠ [] ∧
      List.Pairwise rankedBefore (get_cheap_stocks ["WIT"] witQuotes histEmpty 10) :=
  ⟨by decide, C3_sorted ["WIT"] witQuotes histEmpty 10 (by decide)⟩

/-! ## Claims about the Stock Filter -/

theorem evalVariant_eq_some {symbol sym : String} {quotes : String → Option Quote}
    {hist : String → List ℝ} {c : Candidate}
    (h : evalVariant symbol sym quotes hist = some c) :
    ∃ info price pe, quotes sym = some info ∧ info.currentPrice = some price ∧
      info.trailingPE = some pe ∧ 10 < price ∧ price < 100 ∧
      2 ≤ (filters info).count true ∧
      c = { symbol := symbol
            name := info.shortName.getD symbol
            price := price
            pe := pe
            mcap := formatMcap (info.marketCap.getD 0)
            volatility := get_volatility (hist sym)
            liquidity := some (info.averageVolume.getD 0) } := by
  unfold evalVariant at h
  split at h
  · exact absurd h (by simp)
  next info hq =>
    split at h
    next price pe hp hpe =>
      split at h
      next hgate =>
        split at h
        next hcount =>
          exact ⟨info, price, pe, hq, hp, hpe, hgate.1, hgate.2, hcount,
            (Option.some.inj h).symm⟩
        · exact absurd h (by simp)
      · exact absurd h (by simp)
    next hnot => exact absurd h (by simp)

theorem tryVariants_eq_some {symbol : String} {quotes : String → Option Quote}
    {hist : String → List ℝ} {l : List String} {c : Candidate}
    (h : tryVariants symbol quotes hist l = some c) :
    ∃ v, v ∈ l ∧ evalVariant symbol v quotes hist = some c := by
  induction l with
  | nil => simp [tryVariants] at h
  | cons v rest ih =>
    unfold tryVariants at h
    split at h
    next c2 heq => exact ⟨v, List.mem_cons_self v rest, heq.trans h⟩
    next heq =>
      obtain ⟨u, hu, he⟩ := ih h
      exact ⟨u, List.mem_cons_of_mem _ hu, he⟩

theorem tryVariants_first_match {symbol : String} {quotes : String → Option Quote}
    {hist : String → List ℝ} (l : List String) (c : Candidate) :
    tryVariants symbol quotes hist l = some c ↔
      ∃ l₁ v l₂, l = l₁ ++ v :: l₂ ∧
        (∀ u ∈ l₁, evalVariant symbol u quotes hist = none) ∧
        evalVariant symbol v quotes hist = some c := by
  induction l with
  | nil =>
    constructor
    · intro h
      simp [tryVariants] at h
    · rintro ⟨l₁, v, l₂, habs, -, -⟩
      exact absurd habs (by simp)
  | cons w rest ih =>
    constructor
    · intro h
      unfold tryVariants at h
      split at h
      next c2 heq =>
        exact ⟨[], w, rest, rfl, by simp, heq.trans h⟩
      next heq =>
        obtain ⟨l₁, v, l₂, hl, hnone, hv⟩ := ih.mp h
        refine ⟨w :: l₁, v, l₂, by rw [hl]; rfl, ?_, hv⟩
        intro u hu
        rcases List.mem_cons.mp hu with rfl | hu
        · exact heq
        · exact hnone u hu
    · rintro ⟨l₁, v, l₂, hl, hnone, hv⟩
      cases l₁ with
      | nil =>
        obtain ⟨rfl, rfl⟩ : w = v ∧ rest = l₂ := by
          simpa using hl
        unfold tryVariants
        rw [hv]
      | cons x l₁ =>
        obtain ⟨rfl, hrest⟩ : w = x ∧ rest = l₁ ++ v :: l₂ := by
          simpa using hl
        have hw : evalVariant symbol w quotes hist = none :=
          hnone w (List.mem_cons_self _ _)
        unfold tryVariants
        rw [hw]
        exact ih.mpr ⟨l₁, v, l₂, hrest, fun u hu => hnone u (List.mem_cons_of_mem _ hu), hv⟩

/-- C1: once a variant's quote resolves with both essential fields present
and its price passes the gate, the loop body admits a candidate iff at least
2 of the 5 checks hold, with the documented defaults for missing fields
(`mkRat 1 20 = 0.05`, `mkRat 3 5 = 0.6`, `mkRat 4 5 = 0.8`; a trailing P/E is
always present at this point, so its missing-field default `float('inf')`,
which fails the check, cannot fire). -/
theorem C1_admission_iff (symbol sym : String) (quotes : String → Option Quote)
    (hist : String → List ℝ) (info : Quote) (price pe : ℚ)
    (hq : quotes sym = some info) (hp : info.currentPrice = some price)
    (hpe : info.trailingPE = some pe) (h10 : 10 < price) (h100 : price < 100) :
    (evalVariant symbol sym quotes hist).isSome = true ↔
      2 ≤ List.count true
        [ decide (pe < 45),
          decide (info.debtToEquity.getD 2 < 2),
          decide (info.returnOnEquity.getD 0 > mkRat 1 20),
          decide (info.currentRatio.getD (mkRat 4 5) > mkRat 3 5),
          decide (info.marketCap.getD 0 > 300) ] := by
  have hfil : filters info =
      [ decide (pe < 45),
        decide (info.debtToEquity.getD 2 < 2),
        decide (info.returnOnEquity.getD 0 > mkRat 1 20),
        decide (info.currentRatio.getD (mkRat 4 5) > mkRat 3 5),
        decide (info.marketCap.getD 0 > 300) ] := by
    unfold filters
    rw [hpe]
  unfold evalVariant
  rw [hq]
  simp only [hp, hpe]
  rw [if_pos ⟨h10, h100⟩, hfil]
  constructor
  · intro hs
    by_cases hc : 2 ≤ List.count true
        [ decide (pe < 45),
          decide (info.debtToEquity.getD 2 < 2),
          decide (info.returnOnEquity.getD 0 > mkRat 1 20),
          decide (info.currentRatio.getD (mkRat 4 5) > mkRat 3 5),
          decide (info.marketCap.getD 0 > 300) ]
    · exact hc
    · rw [if_neg hc] at hs
      simp at hs
  · intro hc
    rw [if_pos hc]
    rfl

/-- Witness for C1 at `witInfo` (price 50, all five checks pass). -/
theorem C1_witness :
    witQuotes "WIT" = some witInfo ∧ witInfo.currentPrice = some 50 ∧
    witInfo.trailingPE = some 10 ∧ (10 : ℚ) < 50 ∧ (50 : ℚ) < 100 ∧
    ((evalVariant "WIT" "WIT" witQuotes histEmpty).isSome = true ↔
      2 ≤ List.count true
        [ decide ((10 : ℚ) < 45),
          decide (witInfo.debtToEquity.getD 2 < 2),
          decide (witInfo.returnOnEquity.getD 0 > mkRat 1 20),
          decide (witInfo.currentRatio.getD (mkRat 4 5) > mkRat 3 5),
          decide (witInfo.marketCap.getD 0 > 300) ]) :=
  ⟨rfl, rfl, rfl, by decide, by decide,
    C1_admission_iff "WIT" "WIT" witQuotes histEmpty witInfo 50 10 rfl rfl rfl
      (by decide) (by decide)⟩

/-- C4: any candidate the filter produces has a price strictly greater than
10 and strictly less than 100. -/
theorem C4_price_gate (symbol : String) (quotes : String → Option Quote)
    (hist : String → List ℝ) (c : Candidate)
    (h : filter_cheap_stocks symbol quotes hist = some c) :
    10 < c.price ∧ c.price < 100 := by
  obtain ⟨v, -, hv⟩ := tryVariants_eq_some h
  obtain ⟨info, price, pe, -, -, -, h10, h100, -, rfl⟩ := evalVariant_eq_some hv
  exact ⟨h10, h100⟩

/-- Witness for C4: a concrete admitted candidate with price 50. -/
theorem C4_witness :
    filter_cheap_stocks "WIT" witQuotes histEmpty = some witCand ∧
    (10 < witCand.price ∧ witCand.price < 100) :=
  ⟨rfl, C4_price_gate "WIT" witQuotes histEmpty witCand rfl⟩

/-- C5 (amended): the filter tries the four spelling variants in order and
its outcome is decided by the first variant whose whole evaluation — lookup
succeeds, both essential fields present, price gate passes, and at least 2 of
the 5 checks hold — produces a candidate; a variant whose lookup merely
succeeds with both fields present but which fails the price gate or the
checks does not stop the search. If no variant produces a candidate the
symbol yields no candidate (not an error). -/
theorem C5_first_producing_variant (symbol : String) (quotes : String → Option Quote)
    (hist : String → List ℝ) (c : Candidate) :
    filter_cheap_stocks symbol quotes hist = some c ↔
      ∃ l₁ v l₂, symbol_variants symbol = l₁ ++ v :: l₂ ∧
        (∀ u ∈ l₁, evalVariant symbol u quotes hist = none) ∧
        evalVariant symbol v quotes hist = some c :=
  tryVariants_first_match (symbol_variants symbol) c

/-- C5 counterexample: under `cexQuotes` the first variant of `"CEX.NS"`
resolves with both essential fields present (price 150), so by the claim that
variant decides the outcome and, failing the price gate, no candidate would
be produced; the code instead keeps trying and admits a candidate (price 50)
from the later suffix-stripped variant. -/
theorem C5_cex :
    cexQuotes "CEX.NS" = some cexInfoHigh ∧
    cexInfoHigh.currentPrice.isSome = true ∧
    cexInfoHigh.trailingPE.isSome = true ∧
    evalVariant "CEX.NS" "CEX.NS" cexQuotes histEmpty = none ∧
    filter_cheap_stocks "CEX.NS" cexQuotes histEmpty = some cexCand ∧
    cexCand.price = 50 :=
  ⟨rfl, rfl, rfl, rfl, rfl, rfl⟩

/-- C8 (amended): every candidate the filter admits carries as its mcap
display string the resolved quote's raw market cap (default 0) divided by the
fixed divisor 100, rendered with ONE-decimal (not two-decimal) precision
between the currency prefix and the `Cr` unit suffix. -/
theorem C8_mcap_one_decimal (symbol : String) (quotes : String → Option Quote)
    (hist : String → List ℝ) (c : Candidate)
    (h : filter_cheap_stocks symbol quotes hist = some c) :
    ∃ v ∈ symbol_variants symbol, ∃ info, quotes v = some info ∧
      c.mcap = "₹" ++ fixed1 (info.marketCap.getD 0 / 100) ++ "Cr" := by
  obtain ⟨v, hvmem, hv⟩ := tryVariants_eq_some h
  obtain ⟨info, price, pe, hq, -, -, -, -, -, rfl⟩ := evalVariant_eq_some hv
  exact ⟨v, hvmem, info, hq, rfl⟩

/-- Witness for C8 at the concrete admitted candidate `witCand`. -/
theorem C8_witness :
    filter_cheap_stocks "WIT" witQuotes histEmpty = some witCand ∧
    ∃ v ∈ symbol_variants "WIT", ∃ info, witQuotes v = some info ∧
      witCand.mcap = "₹" ++ fixed1 (info.marketCap.getD 0 / 100) ++ "Cr" :=
  ⟨rfl, C8_mcap_one_decimal "WIT" witQuotes histEmpty witCand rfl⟩

/-- C8 counterexample: the admitted candidate `witCand` (raw market cap 1000)
carries the display string `₹10.0Cr` — one digit after the decimal point —
whereas the claimed two-decimal rendering would give `₹10.00Cr`. -/
theorem C8_cex :
    filter_cheap_stocks "WIT" witQuotes histEmpty = some witCand ∧
    witCand.mcap = "₹10.0Cr" ∧
    formatMcapSpecTwoDec 1000 = "₹10.00Cr" ∧
    witCand.mcap ≠ formatMcapSpecTwoDec 1000 := by
  have hdiv : (1000 : ℚ) / 100 = ((10 : ℤ) : ℚ) := by norm_num
  have h1 : witCand.mcap = "₹10.0Cr" := by
    calc witCand.mcap = "₹" ++ fixed1 ((1000 : ℚ) / 100) ++ "Cr" := rfl
      _ = "₹" ++ fixed1 (((10 : ℤ) : ℚ)) ++ "Cr" := by rw [hdiv]
      _ = "₹10.0Cr" := by rw [fixed1_intCast]; decide
  have h2 : formatMcapSpecTwoDec 1000 = "₹10.00Cr" := by
    calc formatMcapSpecTwoDec 1000 = "₹" ++ fixed2 ((1000 : ℚ) / 100) ++ "Cr" := rfl
      _ = "₹" ++ fixed2 (((10 : ℤ) : ℚ)) ++ "Cr" := by rw [hdiv]
      _ = "₹10.00Cr" := by rw [fixed2_intCast]; decide
  refine ⟨rfl, h1, h2, ?_⟩
  rw [h1, h2]
  decide

/-- C10: an admitted candidate keeps the original input symbol in its symbol
field, while name, price, P/E, volatility and liquidity all come from the
resolved variant's quote and history lookups. -/
theorem C10_original_symbol (symbol : String) (quotes : String → Option Quote)
    (hist : String → List ℝ) (c : Candidate)
    (h : filter_cheap_stocks symbol quotes hist = some c) :
    c.symbol = symbol ∧
    ∃ v ∈ symbol_variants symbol, ∃ info price pe,
      quotes v = some info ∧ info.currentPrice = some price ∧
      info.trailingPE = some pe ∧ c.price = price ∧ c.pe = pe ∧
      c.name = info.shortName.getD symbol ∧
      c.volatility = get_volatility (hist v) ∧
      c.liquidity = some (info.averageVolume.getD 0) := by
  obtain ⟨v, hvmem, hv⟩ := tryVariants_eq_some h
  obtain ⟨info, price, pe, hq, hp, hpe, -, -, -, rfl⟩ := evalVariant_eq_some hv
  exact ⟨rfl, v, hvmem, info, price, pe, hq, hp, hpe, rfl, rfl, rfl, rfl, rfl⟩

/-- Witness for C10: the candidate admitted for `"CEX.NS"` resolves via the
suffix-stripped variant yet keeps the original symbol spelling. -/
theorem C10_witness :
    filter_cheap_stocks "CEX.NS" cexQuotes histEmpty = some cexCand ∧
    (cexCand.symbol = "CEX.NS" ∧
      ∃ v ∈ symbol_variants "CEX.NS", ∃ info price pe,
        cexQuotes v = some info ∧ info.currentPrice = some price ∧
        info.trailingPE = some pe ∧ cexCand.price = price ∧ cexCand.pe = pe ∧
        cexCand.name = info.shortName.getD "CEX.NS" ∧
        cexCand.volatility = get_volatility (histEmpty v) ∧
        cexCand.liquidity = some (info.averageVolume.getD 0)) :=
  ⟨rfl, C10_original_symbol "CEX.NS" cexQuotes histEmpty cexCand rfl⟩
